import Mathlib

/-!
Verification of the reconciliation core of the scraper repository.

The development shallowly embeds, over `Str := List Char`:
  * `normalize_product_url` (src/common/store_api.py),
  * the per-source reconciliation engine `BaseScraper.process_results`
    together with `handle_new_listing`, `handle_existing_listing`,
    `handle_missing_products` and `create_embed` (src/scrapers/base.py),
  * the cross-source aggregator `batch_update_store`
    (src/common/batch_store_update.py),
  * the threshold-retirement database operations
    (src/common/database.py, src/scrapers/poshmark_scraper.py).
-/

namespace Scraper

/-- Strings are modelled as lists of characters so that the Python string
operations (slicing, splitting, substring tests) have transparent
recursive definitions. -/
abbrev Str := List Char

/-- Python `str.lower()` (the sources only compare ASCII text). -/
def pyLower (s : Str) : Str := s.map Char.toLower

/-- Python `needle in haystack` substring test. -/
def pyContains (haystack needle : Str) : Bool := decide (needle <:+: haystack)

/-- Python `s.split(sep)`: split on every occurrence of `sep`, keeping
empty segments; the result is always non-empty. -/
def pySplit (sep : Char) : Str → List Str
  | [] => [[]]
  | c :: cs =>
    if c = sep then [] :: pySplit sep cs
    else
      match pySplit sep cs with
      | [] => [[c]]
      | s :: ss => (c :: s) :: ss

/-- Python `s.rstrip(sep)`: drop all trailing occurrences of `sep`. -/
def pyRstrip (sep : Char) (s : Str) : Str :=
  (s.reverse.dropWhile (· = sep)).reverse

/-- A character allowed in a URL scheme (`urllib.parse.scheme_chars`). -/
def isSchemeChar (c : Char) : Bool :=
  c.isAlphanum || c = '+' || c = '-' || c = '.'

/-- Drop a leading `scheme:` from a URL, as `urllib.parse.urlsplit` does:
the scheme is the maximal prefix of scheme characters, recognised only
when it is non-empty and immediately followed by `:`. -/
def dropScheme (s : Str) : Str :=
  let pre := s.takeWhile isSchemeChar
  match s.drop pre.length with
  | ':' :: rest => if pre.isEmpty then s else rest
  | _ => s

/-- Drop a leading `//netloc` component: after the scheme, `urlsplit`
consumes `//` followed by everything up to the next `/`, `?` or `#`. -/
def dropNetloc : Str → Str
  | '/' :: '/' :: rest => rest.dropWhile (fun c => c ≠ '/' && c ≠ '?' && c ≠ '#')
  | s => s

/-- The path-and-params component produced by `urllib.parse.urlsplit`:
strip the scheme and the netloc, then cut at the first `#` (fragment)
and the first `?` (query).  Any `;params` part is still present here;
`urlparse` removes it afterwards. -/
def urlsplitPath (url : Str) : Str :=
  ((dropNetloc (dropScheme url)).takeWhile (· ≠ '#')).takeWhile (· ≠ '?')

/-- Python `s.find(c, start)`: index of the first occurrence of `c` at
or after `start`, if any. -/
def pyFindFrom (c : Char) (s : Str) (start : Nat) : Option Nat :=
  ((s.drop start).findIdx? (· = c)).map (· + start)

/-- Python `s.rfind(c)`: index of the last occurrence of `c`, if any. -/
def pyRfindIdx (c : Char) (s : Str) : Option Nat :=
  (s.reverse.findIdx? (· = c)).map (fun i => s.length - 1 - i)

/-- The url half of `urllib.parse._splitparams`: when the string has a
slash, cut at the first `;` at or after the last `/` (leaving the
string alone when that segment has no `;`); otherwise cut at the first
`;` anywhere. -/
def splitparamsUrl (u : Str) : Str :=
  let i? :=
    if '/' ∈ u then
      match pyRfindIdx '/' u with
      | some j => pyFindFrom ';' u j
      | none => pyFindFrom ';' u 0
    else pyFindFrom ';' u 0
  match i? with
  | none => u
  | some i => u.take i

/-- The `path` component of `urllib.parse.urlparse(url)`: the urlsplit
path, with the params part of its last segment removed when the path
contains a `;` (the `if c in url` guard followed by `_splitparams`). -/
def urlparsePath (url : Str) : Str :=
  let p := urlsplitPath url
  if ';' ∈ p then splitparamsUrl p else p

/-- Embedding of `normalize_product_url` (src/common/store_api.py): take the path of
the URL, strip trailing slashes, split on `/` and keep the last piece. -/
def normalize_product_url (url : Str) : Str :=
  (pySplit '/' (pyRstrip '/' (urlparsePath url))).getLastD []

/-- A freshly scraped listing record. -/
structure Listing where
  url : Str
  title : Str
  price : Str
  status : Str
  photo : Str
  stock : Option Int := none
  deriving DecidableEq, Repr

/-- A persisted row of a per-source table. -/
structure Row where
  url : Str
  title : Str
  price : Str
  status : Str
  photo : Str
  stock : Option Int := none
  deriving DecidableEq, Repr

/-- One field of a Discord embed. -/
structure EmbedField where
  name : Str
  value : Str
  inline : Bool
  deriving DecidableEq, Repr

/-- The embed dict built by `BaseScraper.create_embed`. -/
structure Embed where
  title : Str
  url : Str
  color : Nat
  description : Str
  fields : List EmbedField
  thumbnail : Str
  deriving DecidableEq, Repr

/-- Python `"\n".join(changes)`. -/
def joinNewline : List Str → Str
  | [] => []
  | [s] => s
  | s :: rest => s ++ '\n' :: joinNewline rest

/-- Embedding of `BaseScraper.create_embed` (base.py lines 182-202). -/
def create_embed (result : Listing) (title_pre : Str) (changes : List Str) : Embed :=
  { title := title_pre ++ ": ".toList ++ result.title
    url := result.url
    color := 0x00ff00
    description :=
      if changes.isEmpty then [] else "**Changes:**\n".toList ++ joinNewline changes
    fields :=
      [⟨"Price".toList, result.price, true⟩, ⟨"Status".toList, result.status, true⟩]
        ++ (match result.stock with
            | some n => [⟨"Stock".toList, (toString n).toList, true⟩]
            | none => [])
    thumbnail := result.photo }

/-- Lookup by primary key: `SELECT * FROM table WHERE url = ?` plus `fetchone()`. -/
def lookupRow (table : List Row) (url : Str) : Option Row :=
  table.find? (fun r => r.url = url)

def rowOfListing (r : Listing) : Row :=
  ⟨r.url, r.title, r.price, r.status, r.photo, r.stock⟩

def listingOfRow (row : Row) : Listing :=
  ⟨row.url, row.title, row.price, row.status, row.photo, row.stock⟩

/-- Embedding of `BaseScraper.handle_new_listing`: insert the full row and send one
"New Listing" notification. -/
def handle_new_listing (table : List Row) (result : Listing) : List Row × List Embed :=
  (table ++ [rowOfListing result], [create_embed result ("New Listing".toList) []])

def priceLine (old new : Str) : Str :=
  "Price changed from ".toList ++ old ++ " to ".toList ++ new

def statusLine (old new : Str) : Str :=
  "Status changed from ".toList ++ old ++ " to ".toList ++ new

def stockAlertLine (n : Int) : Str :=
  "STOCK ALERT! Current: ".toList ++ (toString n).toList

/-- The descending alert thresholds of `handle_existing_listing`. -/
def alert_thresholds : List Int := [50, 40, 30, 20, 10, 5]

/-- The `for threshold in alert_thresholds: ... break` loop: the first
threshold `t` (in list order) with `old_stock > t` and `new_stock ≤ t`. -/
def firstCrossedThreshold (old_stock new_stock : Int) : List Int → Option Int
  | [] => none
  | t :: ts =>
    if old_stock > t ∧ new_stock ≤ t then some t
    else firstCrossedThreshold old_stock new_stock ts

/-- The stock-alert portion of the changes list. -/
def stockChanges (current_row : Row) (new_result : Listing) : List Str :=
  match new_result.stock, current_row.stock with
  | some new_stock, some old_stock =>
    if new_stock < old_stock then
      match firstCrossedThreshold old_stock new_stock alert_thresholds with
      | some _ => [stockAlertLine new_stock]
      | none => []
    else []
  | _, _ => []

/-- The changes list built by `handle_existing_listing` (base.py lines
146-165): a price line, a status line, and at most one stock alert. -/
def changesFor (current_row : Row) (new_result : Listing) : List Str :=
  (if current_row.price ≠ new_result.price
    then [priceLine current_row.price new_result.price] else [])
    ++ (if current_row.status ≠ new_result.status
        then [statusLine current_row.status new_result.status] else [])
    ++ stockChanges current_row new_result

/-- The row after `UPDATE table SET <new_result keys> WHERE url = ?`:
every key of `new_result` is overwritten; when `new_result` has no
`stock` key the stored stock column is untouched. -/
def updateRow (row : Row) (new_result : Listing) : Row :=
  { url := new_result.url, title := new_result.title, price := new_result.price,
    status := new_result.status, photo := new_result.photo,
    stock := match new_result.stock with | some s => some s | none => row.stock }

def updateTable (table : List Row) (new_result : Listing) : List Row :=
  table.map (fun row => if row.url = new_result.url then updateRow row new_result else row)

/-- Embedding of `BaseScraper.handle_existing_listing`: if any change was detected,
overwrite the tracked fields and send one "Listing Updated" embed;
otherwise do nothing. -/
def handle_existing_listing (table : List Row) (current_row : Row) (new_result : Listing) :
    List Row × List Embed :=
  let changes := changesFor current_row new_result
  if changes.isEmpty then (table, [])
  else (updateTable table new_result,
    [create_embed new_result ("Listing Updated".toList) changes])

/-- Embedding of `BaseScraper.process_single_result`. -/
def process_single_result (table : List Row) (result : Listing) : List Row × List Embed :=
  match lookupRow table result.url with
  | none => handle_new_listing table result
  | some row => handle_existing_listing table row result

def soldOutStr : Str := "sold out".toList

/-- The terminal-status test of `handle_missing_products`: whether
`sold out` or `inactive` occurs as a substring of the lowercased stored
status. -/
def isTerminalStatus (status : Str) : Bool :=
  pyContains (pyLower status) ("sold out".toList)
    || pyContains (pyLower status) ("inactive".toList)

/-- The status mutation: set the stored status of one url to `sold out`. -/
def setStatusSoldOut (table : List Row) (url : Str) : List Row :=
  table.map (fun r => if r.url = url then { r with status := soldOutStr } else r)

def removedChangeLine : Str :=
  "Product no longer available on website - marked as sold out".toList

/-- Embedding of `BaseScraper.handle_missing_products` (base.py lines 92-130):
returns the new table, the list of urls whose status was mutated, and
the "Product Removed" embeds sent. -/
def handle_missing_products (table : List Row) : List Str → List Row × List Str × List Embed
  | [] => (table, [], [])
  | url :: rest =>
    match lookupRow table url with
    | none => handle_missing_products table rest
    | some row =>
      if isTerminalStatus row.status then handle_missing_products table rest
      else
        let out := handle_missing_products (setStatusSoldOut table url) rest
        (out.1, url :: out.2.1,
          create_embed (listingOfRow { row with status := soldOutStr })
            ("Product Removed".toList) [removedChangeLine] :: out.2.2)

/-- The `for result in results` loop of `process_results`. -/
def processList (table : List Row) : List Listing → List Row × List Embed
  | [] => (table, [])
  | r :: rest =>
    let step := process_single_result table r
    let out := processList step.1 rest
    (out.1, step.2 ++ out.2)

/-- Embedding of `BaseScraper.process_results` (base.py lines 42-76): no-op on empty
input; otherwise process every scraped listing, then mark the urls known
to the table but absent from the scrape. -/
def process_results (table : List Row) (results : List Listing) : List Row × List Embed :=
  if results.isEmpty then (table, [])
  else
    let current_urls := results.map (·.url)
    let missing_urls := (table.map (·.url)).filter (fun u => decide (u ∉ current_urls))
    let step := processList table results
    let miss := handle_missing_products step.1 missing_urls
    (miss.1, step.2 ++ miss.2.2)

/-- C9: an empty scrape is a complete no-op: `process_results` leaves
the table untouched and sends no notification, so missing-listing
retirement never runs on a run that scraped zero listings. -/
theorem C9_empty_results_no_op (table : List Row) :
    process_results table [] = (table, []) := rfl

/-- C6: reconciling a scraped record identical to its stored row makes
no store mutation and sends no notification. -/
theorem C6_unchanged_is_idempotent (table : List Row) (row : Row)
    (h : lookupRow table row.url = some row) :
    process_single_result table (listingOfRow row) = (table, []) := by
  have hu : (listingOfRow row).url = row.url := rfl
  have hch : changesFor row (listingOfRow row) = [] := by
    unfold changesFor stockChanges listingOfRow
    cases row.stock <;> simp
  simp [process_single_result, hu, h, handle_existing_listing, hch]

/-- Witness for `C6_unchanged_is_idempotent` at a concrete table. -/
theorem C6_witness :
    process_single_result
        [⟨"u".toList, "t".toList, "9".toList, "in stock".toList, "p".toList, none⟩]
        (listingOfRow ⟨"u".toList, "t".toList, "9".toList, "in stock".toList, "p".toList, none⟩)
      = ([⟨"u".toList, "t".toList, "9".toList, "in stock".toList, "p".toList, none⟩], []) :=
  C6_unchanged_is_idempotent _ _ (by decide)

/-- C10: with equal price, equal status and no stock threshold crossed,
a title or photo difference alone neither mutates the store nor sends a
notification (the changes list never looks at title or photo), so the
stored title and photo go stale. -/
theorem C10_title_photo_changes_ignored (table : List Row) (row : Row) (r : Listing)
    (hl : lookupRow table r.url = some row)
    (hp : row.price = r.price) (hs : row.status = r.status)
    (hst : stockChanges row r = [])
    (_hdiff : r.title ≠ row.title ∨ r.photo ≠ row.photo) :
    process_single_result table r = (table, [])
    ∧ ∀ (t' p' : Str), changesFor row { r with title := t', photo := p' } = changesFor row r := by
  refine ⟨?_, fun t' p' => rfl⟩
  have hch : changesFor row r = [] := by
    unfold changesFor
    rw [hst]
    simp [hp, hs]
  simp [process_single_result, hl, handle_existing_listing, hch]

def staleRowExample : Row :=
  ⟨"u".toList, "t1".toList, "9".toList, "ok".toList, "p1".toList, none⟩

def staleListingExample : Listing :=
  ⟨"u".toList, "t2".toList, "9".toList, "ok".toList, "p2".toList, none⟩

/-- Witness for `C10_title_photo_changes_ignored`. -/
theorem C10_witness :
    process_single_result [staleRowExample] staleListingExample = ([staleRowExample], []) :=
  (C10_title_photo_changes_ignored [staleRowExample] staleRowExample staleListingExample
    (by decide) (by decide) (by decide) (by decide) (Or.inl (by decide))).1

theorem stockAlertLine_ne_priceLine (n : Int) (a b : Str) :
    stockAlertLine n ≠ priceLine a b := by
  intro h
  unfold stockAlertLine priceLine at h
  have h1 : "STOCK ALERT! Current: ".toList = 'S' :: "TOCK ALERT! Current: ".toList := by decide
  have h2 : "Price changed from ".toList = 'P' :: "rice changed from ".toList := by decide
  rw [h1, h2, List.cons_append, List.cons_append] at h
  have := List.head_eq_of_cons_eq h
  exact absurd this (by decide)

theorem stockAlertLine_ne_statusLine (n : Int) (a b : Str) :
    stockAlertLine n ≠ statusLine a b := by
  intro h
  unfold stockAlertLine statusLine at h
  have h1 : "STOCK ALERT! Current: ".toList
      = 'S' :: 'T' :: "OCK ALERT! Current: ".toList := by decide
  have h2 : "Status changed from ".toList
      = 'S' :: 't' :: "atus changed from ".toList := by decide
  rw [h1, h2, List.cons_append, List.cons_append, List.cons_append, List.cons_append] at h
  have h3 := List.tail_eq_of_cons_eq h
  have := List.head_eq_of_cons_eq h3
  exact absurd this (by decide)

theorem firstCrossedThreshold_isSome_iff (o n : Int) (ts : List Int) :
    (firstCrossedThreshold o n ts).isSome ↔ ∃ t ∈ ts, o > t ∧ n ≤ t := by
  induction ts with
  | nil => simp [firstCrossedThreshold]
  | cons t rest ih =>
    by_cases hc : o > t ∧ n ≤ t
    · simp [firstCrossedThreshold, hc]
    · simp only [firstCrossedThreshold, hc, if_false, ih, List.mem_cons]
      constructor
      · rintro ⟨t', ht', hp⟩
        exact ⟨t', Or.inr ht', hp⟩
      · rintro ⟨t', ht' | ht', hp⟩
        · exact absurd (ht' ▸ hp) hc
        · exact ⟨t', ht', hp⟩

theorem firstCrossedThreshold_some_spec (o n : Int) (ts : List Int)
    (hsorted : ts.Pairwise (fun a b => a ≥ b)) (t : Int)
    (h : firstCrossedThreshold o n ts = some t) :
    t ∈ ts ∧ o > t ∧ n ≤ t ∧ ∀ t' ∈ ts, o > t' → n ≤ t' → t' ≤ t := by
  induction ts with
  | nil => simp [firstCrossedThreshold] at h
  | cons t0 rest ih =>
    rw [List.pairwise_cons] at hsorted
    by_cases hc : o > t0 ∧ n ≤ t0
    · rw [firstCrossedThreshold, if_pos hc] at h
      injection h with h
      subst h
      refine ⟨List.mem_cons_self _ _, hc.1, hc.2, ?_⟩
      intro t' ht' _ _
      rcases List.mem_cons.mp ht' with rfl | ht'
      · exact le_refl t'
      · exact hsorted.1 t' ht'
    · rw [firstCrossedThreshold, if_neg hc] at h
      obtain ⟨hmem, h1, h2, h3⟩ := ih hsorted.2 h
      refine ⟨List.mem_cons_of_mem _ hmem, h1, h2, ?_⟩
      intro t' ht' ho hn
      rcases List.mem_cons.mp ht' with rfl | ht'
      · exact absurd ⟨ho, hn⟩ hc
      · exact h3 t' ht' ho hn

def stockRow60 : Row :=
  ⟨"u".toList, "t".toList, "9".toList, "in stock".toList, "p".toList, some 60⟩

def stockListing45 : Listing :=
  ⟨"u".toList, "t".toList, "9".toList, "in stock".toList, "p".toList, some 45⟩

/-- C3: when a tracked stock strictly decreases, the single line
`STOCK ALERT! Current: <n>` appears in the changes list iff some
threshold of `[50,40,30,20,10,5]` was crossed (`old > t` and `new ≤ t`),
the threshold that fires is the first (largest) crossed one, at most one
alert line is produced, and the drop `60 → 45` yields exactly one alert
line (threshold 50). -/
theorem C3_stock_alert_threshold_crossing :
    (∀ (row : Row) (r : Listing) (o n : Int),
      row.stock = some o → r.stock = some n → n < o →
      ((stockAlertLine n ∈ changesFor row r ↔ ∃ t ∈ alert_thresholds, o > t ∧ n ≤ t)
        ∧ (∀ t, firstCrossedThreshold o n alert_thresholds = some t →
            t ∈ alert_thresholds ∧ o > t ∧ n ≤ t
              ∧ ∀ t' ∈ alert_thresholds, o > t' → n ≤ t' → t' ≤ t)
        ∧ List.countP (fun s => decide (s = stockAlertLine n)) (changesFor row r) ≤ 1))
    ∧ firstCrossedThreshold 60 45 alert_thresholds = some 50
    ∧ List.countP (fun s => decide (s = stockAlertLine 45))
        (changesFor stockRow60 stockListing45) = 1 := by
  refine ⟨?_, by decide, by decide⟩
  intro row r o n ho hn hlt
  have hstock : stockChanges row r =
      match firstCrossedThreshold o n alert_thresholds with
      | some _ => [stockAlertLine n]
      | none => [] := by
    unfold stockChanges
    rw [hn, ho]
    simp [hlt]
  have hcntP : List.countP (fun s => decide (s = stockAlertLine n))
      (if row.price ≠ r.price then [priceLine row.price r.price] else []) = 0 := by
    split
    · simp only [List.countP_cons, List.countP_nil, Nat.zero_add]
      simp only [decide_eq_true_eq]
      rw [if_neg (fun h => stockAlertLine_ne_priceLine n _ _ h.symm)]
    · rfl
  have hcntS : List.countP (fun s => decide (s = stockAlertLine n))
      (if row.status ≠ r.status then [statusLine row.status r.status] else []) = 0 := by
    split
    · simp only [List.countP_cons, List.countP_nil, Nat.zero_add]
      simp only [decide_eq_true_eq]
      rw [if_neg (fun h => stockAlertLine_ne_statusLine n _ _ h.symm)]
    · rfl
  refine ⟨?_, ?_, ?_⟩
  · constructor
    · intro hmem
      unfold changesFor at hmem
      rcases List.mem_append.mp hmem with hmem | hmem
      · rcases List.mem_append.mp hmem with hmem | hmem
        · split at hmem
          · exact absurd (List.mem_singleton.mp hmem) (stockAlertLine_ne_priceLine n _ _)
          · simp at hmem
        · split at hmem
          · exact absurd (List.mem_singleton.mp hmem) (stockAlertLine_ne_statusLine n _ _)
          · simp at hmem
      · rw [hstock] at hmem
        rcases hf : firstCrossedThreshold o n alert_thresholds with _ | t
        · rw [hf] at hmem
          simp at hmem
        · rw [← firstCrossedThreshold_isSome_iff, hf]
          rfl
    · intro hex
      rw [← firstCrossedThreshold_isSome_iff] at hex
      unfold changesFor
      refine List.mem_append.mpr (Or.inr ?_)
      rw [hstock]
      rcases hf : firstCrossedThreshold o n alert_thresholds with _ | t
      · rw [hf] at hex
        simp at hex
      · simp
  · intro t ht
    exact firstCrossedThreshold_some_spec o n alert_thresholds (by decide) t ht
  · unfold changesFor
    rw [List.countP_append, List.countP_append, hcntP, hcntS, hstock]
    rcases firstCrossedThreshold o n alert_thresholds with _ | t
    · simp
    · simp [List.countP_cons]

theorem find?_map_ite {α : Type} (url : α → Str) (f : α → α) (u u' : Str)
    (hf : ∀ a, url a = u' → url (f a) = url a) (t : List α) :
    (t.map (fun a => if url a = u' then f a else a)).find? (fun a => decide (url a = u)) =
      (t.find? (fun a => decide (url a = u))).map
        (fun a => if url a = u' then f a else a) := by
  induction t with
  | nil => rfl
  | cons a rest ih =>
    have hval : url (if url a = u' then f a else a) = url a := by
      split
      · exact hf a (by assumption)
      · rfl
    rw [List.map_cons]
    by_cases h : url a = u
    · rw [List.find?_cons_of_pos _ (by rw [hval]; simp [h]),
        List.find?_cons_of_pos _ (by simp [h])]
      rfl
    · rw [List.find?_cons_of_neg _ (by rw [hval]; simp [h]),
        List.find?_cons_of_neg _ (by simp [h]), ih]

theorem lookupRow_some_url {t : List Row} {u : Str} {row : Row}
    (h : lookupRow t u = some row) : row.url = u := by
  have := List.find?_some h
  simpa using this

theorem lookup_setStatusSoldOut_eq (t : List Row) (u : Str) :
    lookupRow (setStatusSoldOut t u) u =
      (lookupRow t u).map (fun r => { r with status := soldOutStr }) := by
  unfold lookupRow setStatusSoldOut
  rw [find?_map_ite Row.url (fun r => { r with status := soldOutStr }) u u
    (fun a _ => rfl) t]
  cases h : t.find? (fun a => decide (a.url = u)) with
  | none => rfl
  | some r =>
    have hr : r.url = u := by
      have := List.find?_some h
      simpa using this
    simp [hr]

theorem lookup_setStatusSoldOut_ne (t : List Row) (u u' : Str) (h : u ≠ u') :
    lookupRow (setStatusSoldOut t u') u = lookupRow t u := by
  unfold lookupRow setStatusSoldOut
  rw [find?_map_ite Row.url (fun r => { r with status := soldOutStr }) u u'
    (fun a _ => rfl) t]
  cases hf : t.find? (fun a => decide (a.url = u)) with
  | none => rfl
  | some r =>
    have hr : r.url = u := by
      have := List.find?_some hf
      simpa using this
    simp [hr, h]

theorem create_embed_url (result : Listing) (pre : Str) (changes : List Str) :
    (create_embed result pre changes).url = result.url := rfl

theorem handle_missing_cons (table : List Row) (url : Str) (rest : List Str) :
    handle_missing_products table (url :: rest) =
      match lookupRow table url with
      | none => handle_missing_products table rest
      | some row =>
        if isTerminalStatus row.status then handle_missing_products table rest
        else
          let out := handle_missing_products (setStatusSoldOut table url) rest
          (out.1, url :: out.2.1,
            create_embed (listingOfRow { row with status := soldOutStr })
              ("Product Removed".toList) [removedChangeLine] :: out.2.2) := rfl

/-- Frame lemma: `handle_missing_products` does not touch the row of a
url outside the missing set, never records it as mutated, and sends no
embed whose url is that url. -/
theorem handle_missing_frame (m : List Str) (table : List Row) (u : Str) (hu : u ∉ m) :
    lookupRow (handle_missing_products table m).1 u = lookupRow table u
    ∧ u ∉ (handle_missing_products table m).2.1
    ∧ (handle_missing_products table m).2.2.filter (fun e => decide (e.url = u)) = [] := by
  induction m generalizing table with
  | nil => exact ⟨rfl, by simp [handle_missing_products], rfl⟩
  | cons url0 rest ih =>
    have hne : u ≠ url0 := fun h => hu (h ▸ List.mem_cons_self _ _)
    have hu' : u ∉ rest := fun h => hu (List.mem_cons_of_mem _ h)
    rw [handle_missing_cons]
    cases hl0 : lookupRow table url0 with
    | none => exact ih table hu'
    | some row0 =>
      dsimp only
      by_cases hterm : isTerminalStatus row0.status
      · rw [if_pos hterm]
        exact ih table hu'
      · rw [if_neg hterm]
        obtain ⟨ih1, ih2, ih3⟩ := ih (setStatusSoldOut table url0) hu'
        dsimp only
        refine ⟨?_, ?_, ?_⟩
        · rw [ih1, lookup_setStatusSoldOut_ne table u url0 hne]
        · intro hmem
          rcases List.mem_cons.mp hmem with h | h
          · exact hne h
          · exact ih2 h
        · rw [List.filter_cons]
          have he : ((create_embed (listingOfRow { row0 with status := soldOutStr })
              ("Product Removed".toList) [removedChangeLine]).url = u) = False := by
            rw [create_embed_url]
            have : row0.url = url0 := lookupRow_some_url hl0
            simp [listingOfRow, this, Ne.symm hne]
          simp only [he, decide_False]
          exact ih3

theorem handle_missing_nonterminal (missing : List Str) :
    ∀ (table : List Row) (url : Str) (row : Row), missing.Nodup → url ∈ missing →
      lookupRow table url = some row → isTerminalStatus row.status = false →
      lookupRow (handle_missing_products table missing).1 url
          = some { row with status := soldOutStr }
        ∧ (handle_missing_products table missing).2.1.count url = 1
        ∧ (handle_missing_products table missing).2.2.filter (fun e => decide (e.url = url))
            = [create_embed (listingOfRow { row with status := soldOutStr })
                ("Product Removed".toList) [removedChangeLine]] := by
  induction missing with
  | nil =>
    intro table url row _ hmem
    exact absurd hmem (List.not_mem_nil url)
  | cons url0 rest ih =>
    intro table url row hnd hmem hl hterm
    rw [List.nodup_cons] at hnd
    rw [handle_missing_cons]
    rcases List.mem_cons.mp hmem with rfl | hmem'
    · rw [hl]
      dsimp only
      rw [if_neg (by simp [hterm])]
      obtain ⟨f1, f2, f3⟩ := handle_missing_frame rest (setStatusSoldOut table url) url hnd.1
      have hurl : row.url = url := lookupRow_some_url hl
      refine ⟨?_, ?_, ?_⟩
      · rw [f1, lookup_setStatusSoldOut_eq, hl]
        rfl
      · dsimp only
        rw [List.count_cons_self, List.count_eq_zero.mpr f2]
      · dsimp only
        have heq : (create_embed (listingOfRow { row with status := soldOutStr })
            ("Product Removed".toList) [removedChangeLine]).url = url := by
          rw [create_embed_url]
          exact hurl
        rw [List.filter_cons, if_pos (by rw [heq]; simp), f3]
    · have hne : url ≠ url0 := fun h => hnd.1 (h ▸ hmem')
      cases hl0 : lookupRow table url0 with
      | none => exact ih table url row hnd.2 hmem' hl hterm
      | some row0 =>
        dsimp only
        by_cases hterm0 : isTerminalStatus row0.status
        · rw [if_pos hterm0]
          exact ih table url row hnd.2 hmem' hl hterm
        · rw [if_neg hterm0]
          have hl' : lookupRow (setStatusSoldOut table url0) url = some row := by
            rw [lookup_setStatusSoldOut_ne _ _ _ hne]
            exact hl
          obtain ⟨g1, g2, g3⟩ := ih (setStatusSoldOut table url0) url row hnd.2 hmem' hl' hterm
          have hurl0 : row0.url = url0 := lookupRow_some_url hl0
          refine ⟨g1, ?_, ?_⟩
          · dsimp only
            rw [List.count_cons_of_ne hne, g2]
          · dsimp only
            rw [List.filter_cons,
              if_neg (by simp [create_embed_url, listingOfRow, hurl0, Ne.symm hne]), g3]

theorem handle_missing_terminal (missing : List Str) :
    ∀ (table : List Row) (url : Str) (row : Row), missing.Nodup → url ∈ missing →
      lookupRow table url = some row → isTerminalStatus row.status = true →
      lookupRow (handle_missing_products table missing).1 url = some row
        ∧ url ∉ (handle_missing_products table missing).2.1
        ∧ (handle_missing_products table missing).2.2.filter
            (fun e => decide (e.url = url)) = [] := by
  induction missing with
  | nil =>
    intro table url row _ hmem
    exact absurd hmem (List.not_mem_nil url)
  | cons url0 rest ih =>
    intro table url row hnd hmem hl hterm
    rw [List.nodup_cons] at hnd
    rw [handle_missing_cons]
    rcases List.mem_cons.mp hmem with rfl | hmem'
    · rw [hl]
      dsimp only
      rw [if_pos hterm]
      obtain ⟨f1, f2, f3⟩ := handle_missing_frame rest table url hnd.1
      exact ⟨f1.trans hl, f2, f3⟩
    · have hne : url ≠ url0 := fun h => hnd.1 (h ▸ hmem')
      cases hl0 : lookupRow table url0 with
      | none => exact ih table url row hnd.2 hmem' hl hterm
      | some row0 =>
        dsimp only
        by_cases hterm0 : isTerminalStatus row0.status
        · rw [if_pos hterm0]
          exact ih table url row hnd.2 hmem' hl hterm
        · rw [if_neg hterm0]
          have hl' : lookupRow (setStatusSoldOut table url0) url = some row := by
            rw [lookup_setStatusSoldOut_ne _ _ _ hne]
            exact hl
          obtain ⟨g1, g2, g3⟩ := ih (setStatusSoldOut table url0) url row hnd.2 hmem' hl' hterm
          have hurl0 : row0.url = url0 := lookupRow_some_url hl0
          refine ⟨g1, ?_, ?_⟩
          · dsimp only
            intro hmm
            rcases List.mem_cons.mp hmm with h | h
            · exact hne h
            · exact g2 h
          · dsimp only
            rw [List.filter_cons,
              if_neg (by simp [create_embed_url, listingOfRow, hurl0, Ne.symm hne]), g3]

theorem handle_missing_second_run (missing : List Str) :
    ∀ (table : List Row), missing.Nodup →
      (handle_missing_products (handle_missing_products table missing).1 missing).2.2 = [] := by
  induction missing with
  | nil =>
    intro table _
    rfl
  | cons url0 rest ih =>
    intro table hnd
    rw [List.nodup_cons] at hnd
    cases hl0 : lookupRow table url0 with
    | none =>
      have h1 : handle_missing_products table (url0 :: rest)
          = handle_missing_products table rest := by
        rw [handle_missing_cons, hl0]
      rw [h1, handle_missing_cons, (handle_missing_frame rest table url0 hnd.1).1, hl0]
      exact ih table hnd.2
    | some row0 =>
      by_cases hterm0 : isTerminalStatus row0.status
      · have h1 : handle_missing_products table (url0 :: rest)
            = handle_missing_products table rest := by
          rw [handle_missing_cons, hl0]
          dsimp only
          rw [if_pos hterm0]
        rw [h1, handle_missing_cons, (handle_missing_frame rest table url0 hnd.1).1, hl0]
        dsimp only
        rw [if_pos hterm0]
        exact ih table hnd.2
      · have h1 : (handle_missing_products table (url0 :: rest)).1
            = (handle_missing_products (setStatusSoldOut table url0) rest).1 := by
          rw [handle_missing_cons, hl0]
          dsimp only
          rw [if_neg hterm0]
        rw [h1, handle_missing_cons]
        have h2 : lookupRow (handle_missing_products (setStatusSoldOut table url0) rest).1 url0
            = some { row0 with status := soldOutStr } := by
          rw [(handle_missing_frame rest (setStatusSoldOut table url0) url0 hnd.1).1,
            lookup_setStatusSoldOut_eq, hl0]
          rfl
        rw [h2]
        dsimp only
        rw [if_pos (show isTerminalStatus soldOutStr = true by decide)]
        exact ih (setStatusSoldOut table url0) hnd.2

/-- C2: under direct sold-out marking, every missing url whose stored
status is not yet terminal gets exactly one status mutation to
`sold out` and exactly one "Product Removed" embed; an already-terminal
row is untouched and silent; re-running on the resulting table with the
same missing set sends zero further notifications. -/
theorem C2_direct_marking_retirement :
    (∀ (table : List Row) (missing : List Str) (url : Str) (row : Row),
      missing.Nodup → url ∈ missing → lookupRow table url = some row →
      ((isTerminalStatus row.status = false →
          lookupRow (handle_missing_products table missing).1 url
              = some { row with status := soldOutStr }
            ∧ (handle_missing_products table missing).2.1.count url = 1
            ∧ (handle_missing_products table missing).2.2.filter (fun e => decide (e.url = url))
                = [create_embed (listingOfRow { row with status := soldOutStr })
                    ("Product Removed".toList) [removedChangeLine]])
        ∧ (isTerminalStatus row.status = true →
            lookupRow (handle_missing_products table missing).1 url = some row
              ∧ url ∉ (handle_missing_products table missing).2.1
              ∧ (handle_missing_products table missing).2.2.filter
                  (fun e => decide (e.url = url)) = [])))
    ∧ (∀ (table : List Row) (missing : List Str), missing.Nodup →
        (handle_missing_products (handle_missing_products table missing).1 missing).2.2 = []) := by
  refine ⟨fun table missing url row hnd hmem hl => ⟨fun hterm => ?_, fun hterm => ?_⟩, ?_⟩
  · exact handle_missing_nonterminal missing table url row hnd hmem hl hterm
  · exact handle_missing_terminal missing table url row hnd hmem hl hterm
  · intro table missing hnd
    exact handle_missing_second_run missing table hnd

def missingRowExample : Row :=
  ⟨"u".toList, "t".toList, "9".toList, "in stock".toList, "p".toList, none⟩

/-- Witness for `C2_direct_marking_retirement` on a one-row table. -/
theorem C2_witness :
    lookupRow (handle_missing_products [missingRowExample] ["u".toList]).1 "u".toList
        = some { missingRowExample with status := soldOutStr }
      ∧ (handle_missing_products [missingRowExample] ["u".toList]).2.1.count "u".toList = 1
      ∧ (handle_missing_products [missingRowExample] ["u".toList]).2.2.filter
          (fun e => decide (e.url = "u".toList))
          = [create_embed (listingOfRow { missingRowExample with status := soldOutStr })
              ("Product Removed".toList) [removedChangeLine]] :=
  (C2_direct_marking_retirement.1 [missingRowExample] ["u".toList] "u".toList missingRowExample
    (by decide) (by decide) (by decide)).1 (by decide)

theorem filter_map_ite {α : Type} (url : α → Str) (f : α → α) (u u' : Str) (hne : u ≠ u')
    (hf : ∀ a, url a = u' → url (f a) = url a) (t : List α) :
    (t.map (fun a => if url a = u' then f a else a)).filter (fun a => decide (url a = u))
      = t.filter (fun a => decide (url a = u)) := by
  induction t with
  | nil => rfl
  | cons a rest ih =>
    rw [List.map_cons, List.filter_cons, List.filter_cons]
    by_cases h' : url a = u'
    · have h1 : url (if url a = u' then f a else a) = url a := by
        rw [if_pos h', hf a h']
      have h2 : (url a = u) = False := by
        simp [h' ▸ Ne.symm hne]
      rw [ih]
      simp [h1, h2]
    · rw [if_neg h', ih]
  
theorem lookupRow_eq_none_of_not_mem {table : List Row} {u : Str}
    (h : u ∉ table.map (fun r => r.url)) : lookupRow table u = none := by
  rw [lookupRow, List.find?_eq_none]
  intro r hr
  simp only [decide_eq_true_eq]
  intro heq
  exact h (heq ▸ List.mem_map_of_mem (fun r => r.url) hr)

theorem filter_url_eq_nil_of_not_mem {table : List Row} {u : Str}
    (h : u ∉ table.map (fun r => r.url)) :
    table.filter (fun row => decide (row.url = u)) = [] := by
  rw [List.filter_eq_nil_iff]
  intro r hr
  simp only [decide_eq_true_eq]
  intro heq
  exact h (heq ▸ List.mem_map_of_mem (fun r => r.url) hr)

theorem updateTable_filter_ne (table : List Row) (r : Listing) (u : Str) (hne : u ≠ r.url) :
    (updateTable table r).filter (fun row => decide (row.url = u))
      = table.filter (fun row => decide (row.url = u)) := by
  unfold updateTable
  exact filter_map_ite Row.url (fun row => updateRow row r) u r.url hne
    (fun a ha => by rw [show (updateRow a r).url = r.url from rfl, ha]) table

theorem updateTable_map_url (table : List Row) (r : Listing) :
    (updateTable table r).map (fun row => row.url) = table.map (fun row => row.url) := by
  unfold updateTable
  induction table with
  | nil => rfl
  | cons a rest ih =>
    rw [List.map_cons, List.map_cons, List.map_cons, ih]
    by_cases h : a.url = r.url
    · rw [if_pos h]
      simp [updateRow, h]
    · rw [if_neg h]

theorem setStatus_filter_ne (table : List Row) (url0 u : Str) (hne : u ≠ url0) :
    (setStatusSoldOut table url0).filter (fun row => decide (row.url = u))
      = table.filter (fun row => decide (row.url = u)) := by
  unfold setStatusSoldOut
  exact filter_map_ite Row.url (fun row => { row with status := soldOutStr }) u url0 hne
    (fun a _ => rfl) table

/-- Frame lemma: `handle_missing_products` leaves the rows of urls outside the
missing set untouched (stated at the filter level). -/
theorem handle_missing_filter_frame (m : List Str) (table : List Row) (u : Str) (hu : u ∉ m) :
    (handle_missing_products table m).1.filter (fun row => decide (row.url = u))
      = table.filter (fun row => decide (row.url = u)) := by
  induction m generalizing table with
  | nil => rfl
  | cons url0 rest ih =>
    have hne : u ≠ url0 := fun h => hu (h ▸ List.mem_cons_self _ _)
    have hu' : u ∉ rest := fun h => hu (List.mem_cons_of_mem _ h)
    rw [handle_missing_cons]
    cases hl0 : lookupRow table url0 with
    | none => exact ih table hu'
    | some row0 =>
      dsimp only
      by_cases hterm : isTerminalStatus row0.status
      · rw [if_pos hterm]
        exact ih table hu'
      · rw [if_neg hterm]
        dsimp only
        rw [ih (setStatusSoldOut table url0) hu', setStatus_filter_ne table url0 u hne]

/-- Frame lemma for one processed listing: rows of a different url are
untouched and every embed it sends carries the url of the listing itself. -/
theorem process_single_frame (table : List Row) (r : Listing) (u : Str) (hne : u ≠ r.url) :
    (process_single_result table r).1.filter (fun row => decide (row.url = u))
        = table.filter (fun row => decide (row.url = u))
      ∧ (process_single_result table r).2.filter (fun e => decide (e.url = u)) = [] := by
  unfold process_single_result
  cases hl : lookupRow table r.url with
  | none =>
    dsimp only [handle_new_listing]
    constructor
    · rw [List.filter_append]
      have : (rowOfListing r).url = r.url := rfl
      simp [this, Ne.symm hne]
    · simp [create_embed_url, Ne.symm hne]
  | some row =>
    dsimp only [handle_existing_listing]
    by_cases hch : (changesFor row r).isEmpty
    · rw [if_pos hch]
      exact ⟨rfl, rfl⟩
    · rw [if_neg hch]
      constructor
      · exact updateTable_filter_ne table r u hne
      · simp [create_embed_url, Ne.symm hne]

theorem process_single_mem_url (table : List Row) (r : Listing) (u : Str)
    (h : u ∈ (process_single_result table r).1.map (fun row => row.url)) :
    u ∈ table.map (fun row => row.url) ∨ u = r.url := by
  unfold process_single_result at h
  cases hl : lookupRow table r.url with
  | none =>
    rw [hl] at h
    dsimp only [handle_new_listing] at h
    rw [List.map_append] at h
    rcases List.mem_append.mp h with h | h
    · exact Or.inl h
    · right
      simpa using h
  | some row =>
    rw [hl] at h
    dsimp only [handle_existing_listing] at h
    by_cases hch : (changesFor row r).isEmpty
    · rw [if_pos hch] at h
      exact Or.inl h
    · rw [if_neg hch] at h
      rw [updateTable_map_url] at h
      exact Or.inl h

theorem processList_frame (results : List Listing) :
    ∀ (table : List Row) (u : Str), u ∉ results.map (fun r => r.url) →
      (processList table results).1.filter (fun row => decide (row.url = u))
          = table.filter (fun row => decide (row.url = u))
        ∧ (processList table results).2.filter (fun e => decide (e.url = u)) = [] := by
  induction results with
  | nil => exact fun table u _ => ⟨rfl, rfl⟩
  | cons r rest ih =>
    intro table u hu
    have hne : u ≠ r.url := fun h => hu (h ▸ List.mem_map_of_mem _ (List.mem_cons_self _ _))
    have hu' : u ∉ rest.map (fun r => r.url) := by
      intro h
      rw [List.map_cons] at hu
      exact hu (List.mem_cons_of_mem _ h)
    obtain ⟨a1, a2⟩ := process_single_frame table r u hne
    obtain ⟨b1, b2⟩ := ih (process_single_result table r).1 u hu'
    refine ⟨?_, ?_⟩
    · show (processList (process_single_result table r).1 rest).1.filter _ = _
      rw [b1, a1]
    · show ((process_single_result table r).2
          ++ (processList (process_single_result table r).1 rest).2).filter _ = _
      rw [List.filter_append, a2, b2]
      rfl

/-- Main induction for C5: a batch containing a previously unseen
listing inserts exactly its row and emits exactly its one "New Listing"
embed (among the rows/embeds with that url). -/
theorem processList_new_spec (results : List Listing) :
    ∀ (table : List Row) (L : Listing), (results.map (fun r => r.url)).Nodup →
      L ∈ results → L.url ∉ table.map (fun row => row.url) →
      (processList table results).1.filter (fun row => decide (row.url = L.url))
          = [rowOfListing L]
        ∧ (processList table results).2.filter (fun e => decide (e.url = L.url))
            = [create_embed L ("New Listing".toList) []] := by
  induction results with
  | nil =>
    intro table L _ hmem
    exact absurd hmem (List.not_mem_nil L)
  | cons r rest ih =>
    intro table L hnd hmem htab
    rw [List.map_cons, List.nodup_cons] at hnd
    rcases List.mem_cons.mp hmem with rfl | hmem'
    · have hl : lookupRow table L.url = none := lookupRow_eq_none_of_not_mem htab
      have hstep : process_single_result table L
          = (table ++ [rowOfListing L], [create_embed L ("New Listing".toList) []]) := by
        unfold process_single_result
        rw [hl]
        rfl
      obtain ⟨f1, f2⟩ := processList_frame rest (table ++ [rowOfListing L]) L.url hnd.1
      constructor
      · show (processList (process_single_result table L).1 rest).1.filter _ = _
        rw [hstep]
        dsimp only
        rw [f1, List.filter_append, filter_url_eq_nil_of_not_mem htab]
        have : (rowOfListing L).url = L.url := rfl
        simp [this]
      · show ((process_single_result table L).2
            ++ (processList (process_single_result table L).1 rest).2).filter _ = _
        rw [hstep]
        dsimp only
        rw [List.filter_append, f2]
        simp [create_embed_url]
    · have hLurl : L.url ∈ rest.map (fun r => r.url) := List.mem_map_of_mem _ hmem'
      have hne : L.url ≠ r.url := fun h => hnd.1 (h ▸ hLurl)
      obtain ⟨a1, a2⟩ := process_single_frame table r L.url hne
      have htab' : L.url ∉ (process_single_result table r).1.map (fun row => row.url) := by
        intro h
        rcases process_single_mem_url table r L.url h with h | h
        · exact htab h
        · exact hne h
      obtain ⟨b1, b2⟩ := ih (process_single_result table r).1 L hnd.2 hmem' htab'
      constructor
      · exact b1
      · show ((process_single_result table r).2
            ++ (processList (process_single_result table r).1 rest).2).filter _ = _
        rw [List.filter_append, a2, b2]
        rfl

theorem process_results_nonempty_eq (table : List Row) (results : List Listing)
    (h : results.isEmpty = false) :
    process_results table results =
      ((handle_missing_products (processList table results).1
          ((table.map (fun r => r.url)).filter
            (fun u => decide (u ∉ results.map (fun r => r.url))))).1,
        (processList table results).2
          ++ (handle_missing_products (processList table results).1
              ((table.map (fun r => r.url)).filter
                (fun u => decide (u ∉ results.map (fun r => r.url))))).2.2) := by
  unfold process_results
  rw [h]
  rfl

/-- C5: reconciling a batch that contains a listing whose url is absent
from the store inserts exactly one row for that url (the full row) and
sends exactly one notification with that url, namely the "New Listing"
embed, whose title is `New Listing: <title>`, whose fields carry the
price and the status, and whose thumbnail is the photo of the listing. -/
theorem C5_new_listing_insert_and_notify (table : List Row) (results : List Listing)
    (L : Listing) (hnd : (results.map (fun r => r.url)).Nodup) (hmem : L ∈ results)
    (htab : L.url ∉ table.map (fun row => row.url)) :
    (process_results table results).1.filter (fun row => decide (row.url = L.url))
        = [rowOfListing L]
      ∧ (process_results table results).2.filter (fun e => decide (e.url = L.url))
          = [create_embed L ("New Listing".toList) []]
      ∧ (create_embed L ("New Listing".toList) []).title = "New Listing: ".toList ++ L.title
      ∧ (⟨"Price".toList, L.price, true⟩ : EmbedField)
          ∈ (create_embed L ("New Listing".toList) []).fields
      ∧ (⟨"Status".toList, L.status, true⟩ : EmbedField)
          ∈ (create_embed L ("New Listing".toList) []).fields
      ∧ (create_embed L ("New Listing".toList) []).thumbnail = L.photo := by
  have h0 : results.isEmpty = false := by
    cases results with
    | nil => exact absurd hmem (List.not_mem_nil L)
    | cons a as => rfl
  rw [process_results_nonempty_eq table results h0]
  have hmiss : L.url ∉ (table.map (fun r => r.url)).filter
      (fun u => decide (u ∉ results.map (fun r => r.url))) :=
    fun h => htab (List.mem_filter.mp h).1
  obtain ⟨p1, p2⟩ := processList_new_spec results table L hnd hmem htab
  refine ⟨?_, ?_, ?_, ?_, ?_, rfl⟩
  · rw [handle_missing_filter_frame _ _ _ hmiss, p1]
  · rw [List.filter_append, p2, (handle_missing_frame _ _ _ hmiss).2.2]
    rfl
  · show ("New Listing".toList ++ (": ".toList ++ L.title) : Str) = _
    rw [show ("New Listing: ".toList : Str) = "New Listing".toList ++ ": ".toList by decide,
      List.append_assoc]
  · exact List.mem_cons_self _ _
  · exact List.mem_cons_of_mem _ (List.mem_cons_self _ _)

def newListingExample : Listing :=
  ⟨"u".toList, "t".toList, "9".toList, "in stock".toList, "p".toList, none⟩

/-- Witness for `C5_new_listing_insert_and_notify` on an empty store. -/
theorem C5_witness :
    (process_results [] [newListingExample]).1.filter
        (fun row => decide (row.url = newListingExample.url))
      = [rowOfListing newListingExample] :=
  (C5_new_listing_insert_and_notify [] [newListingExample] newListingExample
    (by decide) (by decide) (by decide)).1

/-- Witness for `C3_stock_alert_threshold_crossing` at stock 60 → 45. -/
theorem C3_witness :
    (stockAlertLine 45 ∈ changesFor stockRow60 stockListing45 ↔
        ∃ t ∈ alert_thresholds, (60 : Int) > t ∧ (45 : Int) ≤ t)
      ∧ (∀ t, firstCrossedThreshold 60 45 alert_thresholds = some t →
          t ∈ alert_thresholds ∧ (60 : Int) > t ∧ (45 : Int) ≤ t
            ∧ ∀ t' ∈ alert_thresholds, (60 : Int) > t' → (45 : Int) ≤ t' → t' ≤ t)
      ∧ List.countP (fun s => decide (s = stockAlertLine 45))
          (changesFor stockRow60 stockListing45) ≤ 1 :=
  (C3_stock_alert_threshold_crossing.1 stockRow60 stockListing45 60 45
    (by decide) (by decide) (by decide))

/-! ## Threshold retirement (src/common/database.py and
src/scrapers/poshmark_scraper.py)

The poshmark table has columns `url, title, price, photo, failed_parse`
with `failed_parse INTEGER DEFAULT 0`.  The `__main__` block increments
`failed_parse` for every url in the database but not in the current
results, then deletes every row with `failed_parse >= 10`; the
`scrape_search` loop resets the counter to 0 for every observed url and
inserts the unseen ones. -/

structure PoshRow where
  url : Str
  title : Str
  price : Str
  photo : Str
  failed_parse : Int
  deriving DecidableEq, Repr

def lookupPosh (table : List PoshRow) (url : Str) : Option PoshRow :=
  table.find? (fun r => r.url = url)

/-- Embedding of `increment_failed_parse` (database.py lines 85-91). -/
def increment_failed_parse (table : List PoshRow) (url : Str) : List PoshRow :=
  table.map (fun r =>
    if r.url = url then { r with failed_parse := r.failed_parse + 1 } else r)

/-- Embedding of `remove_failed_listings` (database.py lines 93-99):
delete every row with `failed_parse >= 10`. -/
def remove_failed_listings (table : List PoshRow) : List PoshRow :=
  table.filter (fun r => decide (r.failed_parse < 10))

/-- Embedding of `reset_failed_parse` (database.py lines 101-105). -/
def reset_failed_parse (table : List PoshRow) (url : Str) : List PoshRow :=
  table.map (fun r => if r.url = url then { r with failed_parse := 0 } else r)

/-- The `__main__` retirement pass of poshmark_scraper.py (lines
196-204): increment every old url, then purge rows at the threshold. -/
def retirement_pass (table : List PoshRow) (old_urls : List Str) : List PoshRow :=
  remove_failed_listings (old_urls.foldl increment_failed_parse table)

structure PoshResult where
  url : Str
  title : Str
  price : Str
  photo : Str
  deriving DecidableEq, Repr

/-- One iteration of the `for result in results` database loop of
`scrape_search` (poshmark_scraper.py lines 134-173): reset the counter,
then insert when the url was not in the database before the loop (a
duplicate insert raises and is caught, leaving the table unchanged). -/
def scrape_search_step (urls_to_insert : List Str) (t : List PoshRow) (r : PoshResult) :
    List PoshRow :=
  let t1 := reset_failed_parse t r.url
  if r.url ∈ urls_to_insert then
    if r.url ∈ t1.map (fun row => row.url) then t1
    else t1 ++ [⟨r.url, r.title, r.price, r.photo, 0⟩]
  else t1

/-- The whole database section of `scrape_search`. -/
def scrape_search_db (table : List PoshRow) (results : List PoshResult) : List PoshRow :=
  results.foldl
    (scrape_search_step
      ((results.map (fun r => r.url)).filter
        (fun u => decide (u ∉ table.map (fun row => row.url)))))
    table

theorem lookupPosh_some_url {t : List PoshRow} {u : Str} {row : PoshRow}
    (h : lookupPosh t u = some row) : row.url = u := by
  have := List.find?_some h
  simpa using this

theorem lookupPosh_some_mem_url {t : List PoshRow} {u : Str} {row : PoshRow}
    (h : lookupPosh t u = some row) : u ∈ t.map (fun r => r.url) := by
  have hmem := List.mem_of_find?_eq_some h
  exact (lookupPosh_some_url h) ▸ List.mem_map_of_mem _ hmem

theorem lookupPosh_map_ite (f : PoshRow → PoshRow) (u u' : Str)
    (hf : ∀ a, a.url = u' → (f a).url = a.url) (t : List PoshRow) :
    lookupPosh (t.map (fun a => if a.url = u' then f a else a)) u =
      (lookupPosh t u).map (fun a => if a.url = u' then f a else a) :=
  find?_map_ite PoshRow.url f u u' hf t

theorem lookupPosh_increment_eq (t : List PoshRow) (u : Str) :
    lookupPosh (increment_failed_parse t u) u =
      (lookupPosh t u).map (fun r => { r with failed_parse := r.failed_parse + 1 }) := by
  unfold increment_failed_parse
  rw [lookupPosh_map_ite (fun r => { r with failed_parse := r.failed_parse + 1 }) u u
    (fun a _ => rfl) t]
  cases h : lookupPosh t u with
  | none => rfl
  | some r => simp [lookupPosh_some_url h]

theorem lookupPosh_increment_ne (t : List PoshRow) (u u' : Str) (hne : u ≠ u') :
    lookupPosh (increment_failed_parse t u') u = lookupPosh t u := by
  unfold increment_failed_parse
  rw [lookupPosh_map_ite (fun r => { r with failed_parse := r.failed_parse + 1 }) u u'
    (fun a _ => rfl) t]
  cases h : lookupPosh t u with
  | none => rfl
  | some r => simp [lookupPosh_some_url h, hne]

theorem lookupPosh_reset_eq (t : List PoshRow) (u : Str) :
    lookupPosh (reset_failed_parse t u) u =
      (lookupPosh t u).map (fun r => { r with failed_parse := 0 }) := by
  unfold reset_failed_parse
  rw [lookupPosh_map_ite (fun r => { r with failed_parse := 0 }) u u (fun a _ => rfl) t]
  cases h : lookupPosh t u with
  | none => rfl
  | some r => simp [lookupPosh_some_url h]

theorem lookupPosh_reset_ne (t : List PoshRow) (u u' : Str) (hne : u ≠ u') :
    lookupPosh (reset_failed_parse t u') u = lookupPosh t u := by
  unfold reset_failed_parse
  rw [lookupPosh_map_ite (fun r => { r with failed_parse := 0 }) u u' (fun a _ => rfl) t]
  cases h : lookupPosh t u with
  | none => rfl
  | some r => simp [lookupPosh_some_url h, hne]

theorem lookupPosh_append_ne (t : List PoshRow) (x : PoshRow) (u : Str) (hne : x.url ≠ u) :
    lookupPosh (t ++ [x]) u = lookupPosh t u := by
  induction t with
  | nil => simp [lookupPosh, List.find?, hne]
  | cons a rest ih =>
    unfold lookupPosh at ih ⊢
    rw [List.cons_append]
    by_cases h : a.url = u
    · rw [List.find?_cons_of_pos _ (by simp [h]), List.find?_cons_of_pos _ (by simp [h])]
    · rw [List.find?_cons_of_neg _ (by simp [h]), List.find?_cons_of_neg _ (by simp [h])]
      exact ih

theorem foldl_increment_not_mem (old_urls : List Str) :
    ∀ (t : List PoshRow) (u : Str), u ∉ old_urls →
      lookupPosh (old_urls.foldl increment_failed_parse t) u = lookupPosh t u := by
  induction old_urls with
  | nil => exact fun t u _ => rfl
  | cons u0 us ih =>
    intro t u hu
    have hne : u ≠ u0 := fun h => hu (h ▸ List.mem_cons_self _ _)
    have hu' : u ∉ us := fun h => hu (List.mem_cons_of_mem _ h)
    rw [List.foldl_cons, ih (increment_failed_parse t u0) u hu',
      lookupPosh_increment_ne t u u0 hne]

theorem foldl_increment_mem (old_urls : List Str) :
    ∀ (t : List PoshRow) (u : Str), old_urls.Nodup → u ∈ old_urls →
      lookupPosh (old_urls.foldl increment_failed_parse t) u =
        (lookupPosh t u).map (fun r => { r with failed_parse := r.failed_parse + 1 }) := by
  induction old_urls with
  | nil =>
    intro t u _ hmem
    exact absurd hmem (List.not_mem_nil u)
  | cons u0 us ih =>
    intro t u hnd hmem
    rw [List.nodup_cons] at hnd
    rw [List.foldl_cons]
    rcases List.mem_cons.mp hmem with rfl | hmem'
    · rw [foldl_increment_not_mem us (increment_failed_parse t u) u hnd.1,
        lookupPosh_increment_eq]
    · have hne : u ≠ u0 := fun h => hnd.1 (h ▸ hmem')
      rw [ih (increment_failed_parse t u0) u hnd.2 hmem',
        lookupPosh_increment_ne t u u0 hne]

theorem scrape_search_fold_frame (results : List PoshResult) (uti : List Str) :
    ∀ (t : List PoshRow) (u : Str), u ∉ results.map (fun r => r.url) →
      lookupPosh (results.foldl (scrape_search_step uti) t) u = lookupPosh t u := by
  induction results with
  | nil => exact fun t u _ => rfl
  | cons r rest ih =>
    intro t u hu
    have hne : u ≠ r.url := fun h => hu (h ▸ List.mem_map_of_mem _ (List.mem_cons_self _ _))
    have hu' : u ∉ rest.map (fun x => x.url) := by
      intro h
      rw [List.map_cons] at hu
      exact hu (List.mem_cons_of_mem _ h)
    rw [List.foldl_cons, ih _ u hu']
    unfold scrape_search_step
    by_cases h1 : r.url ∈ uti
    · rw [if_pos h1]
      by_cases h2 : r.url ∈ (reset_failed_parse t r.url).map (fun row => row.url)
      · rw [if_pos h2, lookupPosh_reset_ne t u r.url hne]
      · rw [if_neg h2, lookupPosh_append_ne _ _ _ (Ne.symm hne),
          lookupPosh_reset_ne t u r.url hne]
    · rw [if_neg h1, lookupPosh_reset_ne t u r.url hne]

theorem scrape_search_fold_reset (results : List PoshResult) (uti : List Str) :
    ∀ (t : List PoshRow) (u : Str) (row : PoshRow), u ∉ uti →
      u ∈ results.map (fun r => r.url) → lookupPosh t u = some row →
      lookupPosh (results.foldl (scrape_search_step uti) t) u =
        some { row with failed_parse := 0 } := by
  induction results with
  | nil =>
    intro t u row _ hmem
    exact absurd hmem (List.not_mem_nil u)
  | cons r rest ih =>
    intro t u row huti hmem hl
    rw [List.foldl_cons]
    by_cases hcase : u = r.url
    · have hstep : scrape_search_step uti t r = reset_failed_parse t r.url := by
        unfold scrape_search_step
        rw [if_neg (hcase ▸ huti)]
      rw [hstep]
      have hl' : lookupPosh t r.url = some row := hcase ▸ hl
      have hl1 : lookupPosh (reset_failed_parse t r.url) u
          = some { row with failed_parse := 0 } := by
        rw [hcase, lookupPosh_reset_eq, hl']
        rfl
      by_cases hrest : u ∈ rest.map (fun x => x.url)
      · exact ih (reset_failed_parse t r.url) u { row with failed_parse := 0 } huti hrest hl1
      · rw [scrape_search_fold_frame rest uti _ u hrest, hl1]
    · have hl1 : lookupPosh (scrape_search_step uti t r) u = some row := by
        unfold scrape_search_step
        by_cases h1 : r.url ∈ uti
        · rw [if_pos h1]
          by_cases h2 : r.url ∈ (reset_failed_parse t r.url).map (fun row => row.url)
          · rw [if_pos h2, lookupPosh_reset_ne t u r.url hcase]
            exact hl
          · rw [if_neg h2, lookupPosh_append_ne _ _ _ (fun h => hcase h.symm),
              lookupPosh_reset_ne t u r.url hcase]
            exact hl
        · rw [if_neg h1, lookupPosh_reset_ne t u r.url hcase]
          exact hl
      have hmem' : u ∈ rest.map (fun x => x.url) := by
        rw [List.map_cons] at hmem
        rcases List.mem_cons.mp hmem with h | h
        · exact absurd h hcase
        · exact h
      exact ih (scrape_search_step uti t r) u row huti hmem' hl1

/-- C4: under threshold retirement, (a) one run increments the counter
of every url of the (duplicate-free) missing set by exactly one,
leaving all other fields and rows alone, (b) the separate cleanup keeps
exactly the rows with `failed_parse < 10` (deleting exactly those at 10
or more), and (c) a re-observed url has its counter reset to 0 by the
scrape loop. -/
theorem C4_threshold_retirement :
    (∀ (table : List PoshRow) (old_urls : List Str) (url : Str) (row : PoshRow),
      old_urls.Nodup → url ∈ old_urls → lookupPosh table url = some row →
      lookupPosh (old_urls.foldl increment_failed_parse table) url
        = some { row with failed_parse := row.failed_parse + 1 })
    ∧ (∀ (table : List PoshRow) (r : PoshRow),
        r ∈ remove_failed_listings table ↔ r ∈ table ∧ r.failed_parse < 10)
    ∧ (∀ (table : List PoshRow) (results : List PoshResult) (url : Str) (row : PoshRow),
        url ∈ results.map (fun r => r.url) → lookupPosh table url = some row →
        lookupPosh (scrape_search_db table results) url
          = some { row with failed_parse := 0 }) := by
  refine ⟨?_, ?_, ?_⟩
  · intro table old_urls url row hnd hmem hl
    rw [foldl_increment_mem old_urls table url hnd hmem, hl]
    rfl
  · intro table r
    unfold remove_failed_listings
    rw [List.mem_filter]
    simp
  · intro table results url row hmem hl
    unfold scrape_search_db
    have huti : url ∉ (results.map (fun r => r.url)).filter
        (fun u => decide (u ∉ table.map (fun row => row.url))) := by
      intro h
      have h2 := (List.mem_filter.mp h).2
      simp only [decide_eq_true_eq] at h2
      exact h2 (lookupPosh_some_mem_url hl)
    exact scrape_search_fold_reset results _ table url row huti hmem hl

def poshRowExample : PoshRow := ⟨"u".toList, "t".toList, "9".toList, "p".toList, 3⟩

/-- Witness for `C4_threshold_retirement`: increment, cleanup and reset
at concrete inputs. -/
theorem C4_witness :
    lookupPosh (["u".toList].foldl increment_failed_parse [poshRowExample]) "u".toList
        = some { poshRowExample with failed_parse := poshRowExample.failed_parse + 1 }
      ∧ (poshRowExample ∈ remove_failed_listings [poshRowExample]
          ↔ poshRowExample ∈ [poshRowExample] ∧ poshRowExample.failed_parse < 10)
      ∧ lookupPosh (scrape_search_db [poshRowExample] [⟨"u".toList, "t".toList, "9".toList,
          "p".toList⟩]) "u".toList = some { poshRowExample with failed_parse := 0 } :=
  ⟨C4_threshold_retirement.1 [poshRowExample] ["u".toList] "u".toList poshRowExample
      (by decide) (by decide) (by decide),
    C4_threshold_retirement.2.1 [poshRowExample] poshRowExample,
    C4_threshold_retirement.2.2 [poshRowExample] [⟨"u".toList, "t".toList, "9".toList,
      "p".toList⟩] "u".toList poshRowExample (by decide) (by decide)⟩

/-! ## Cross-source aggregator (src/common/batch_store_update.py)

`batch_update_store` authenticates once, fetches one snapshot of the
external store, deduplicates all scraped products by normalized handle
(last write wins), queues an activation update for every handle whose
scraped activity bit disagrees with the store, queues a deactivation for
every active store product seen by no scraper, and submits each
non-empty queue as one batched call.  Network effects are modelled as a
trace of `StoreCall`s driven by the oracle results of the token and
snapshot requests (`get_admin_token` returns `none` on failure;
`get_existing_products_status` catches its errors and returns `{}`). -/

/-- A scraped product dict as consumed by the aggregator (fields read
with `.get`, hence optional). -/
structure ScrapedProduct where
  url : Option Str
  title : Option Str
  status : Option Str
  deriving DecidableEq, Repr

/-- An external store product record (only the fields the aggregator
reads). -/
structure ExtProduct where
  product_url : Str
  is_active : Option Bool
  deriving DecidableEq, Repr

/-- A queued update `{product_url, is_active (integer), name}`. -/
structure UpdateRecord where
  product_url : Str
  is_active : Nat
  name : Str
  deriving DecidableEq, Repr

/-- The scraped activity bit: whether `in stock` occurs, case-insensitively,
in the status field (empty when absent). -/
def scraped_is_active (p : ScrapedProduct) : Bool :=
  pyContains (pyLower (p.status.getD [])) ("in stock".toList)

/-- The external activity flag: boolean view of the `is_active` field,
defaulting to false (covering both defaults, False and 0, used in the
source). -/
def ext_is_active (e : ExtProduct) : Bool := e.is_active.getD false

/-- Python dict assignment `d[k] = v`: overwrite in place, else append. -/
def dictInsert {β : Type} (d : List (Str × β)) (k : Str) (v : β) : List (Str × β) :=
  if d.any (fun kv => decide (kv.1 = k)) then
    d.map (fun kv => if kv.1 = k then (k, v) else kv)
  else d ++ [(k, v)]

/-- Python dict lookup of `d[k]` and the test `k in d`. -/
def dictLookup {β : Type} (d : List (Str × β)) (k : Str) : Option β :=
  (d.find? (fun kv => decide (kv.1 = k))).map Prod.snd

/-- The dedup loop (batch_store_update.py lines 43-58): walk every
products of every scraper, skip falsy urls, key by normalized handle,
last write wins. -/
def unique_scraped_products (all_scraped : List (Str × List ScrapedProduct)) :
    List (Str × ScrapedProduct) :=
  all_scraped.foldl
    (fun acc sp =>
      sp.2.foldl
        (fun acc p =>
          match p.url with
          | none => acc
          | some u =>
            if u.isEmpty then acc else dictInsert acc (normalize_product_url u) p)
        acc)
    []

/-- The per-handle decision of the activation-update loop, as one
function: `none` when nothing is queued for this handle. -/
def update_decision (existing_by_handle : List (Str × ExtProduct))
    (hp : Str × ScrapedProduct) : Option UpdateRecord :=
  match dictLookup existing_by_handle hp.1 with
  | none => none
  | some data =>
    if scraped_is_active hp.2 ≠ ext_is_active data then
      some ⟨data.product_url, if scraped_is_active hp.2 then 1 else 0,
        hp.2.title.getD hp.1⟩
    else none

/-- The `products_to_update` queue (batch_store_update.py lines 63-75). -/
def products_to_update (unique : List (Str × ScrapedProduct))
    (existing_by_handle : List (Str × ExtProduct)) : List UpdateRecord :=
  unique.foldl
    (fun acc hp =>
      match dictLookup existing_by_handle hp.1 with
      | none => acc
      | some data =>
        if scraped_is_active hp.2 ≠ ext_is_active data then
          acc ++ [⟨data.product_url, if scraped_is_active hp.2 then 1 else 0,
            hp.2.title.getD hp.1⟩]
        else acc)
    []

/-- The per-handle decision of the missing-products pass. -/
def missing_decision (scraped_handles : List Str) (he : Str × ExtProduct) :
    Option UpdateRecord :=
  if he.1 ∈ scraped_handles then none
  else if ext_is_active he.2 then
    some ⟨he.2.product_url, 0, "(Removed) ".toList ++ he.1⟩
  else none

/-- The `missing_products_to_update` queue (batch_store_update.py lines
89-104): every store handle scraped by no source and currently active. -/
def missing_products_to_update (unique : List (Str × ScrapedProduct))
    (existing_by_handle : List (Str × ExtProduct)) : List UpdateRecord :=
  existing_by_handle.foldl
    (fun acc he =>
      if he.1 ∈ unique.map Prod.fst then acc
      else if ext_is_active he.2 then
        acc ++ [⟨he.2.product_url, 0, "(Removed) ".toList ++ he.1⟩]
      else acc)
    []

theorem foldl_opt_append_eq_filterMap {α β : Type} (f : α → Option β) (l : List α) :
    ∀ acc : List β,
      l.foldl (fun acc a => acc ++ (f a).toList) acc = acc ++ l.filterMap f := by
  induction l with
  | nil =>
    intro acc
    simp
  | cons a rest ih =>
    intro acc
    rw [List.foldl_cons, List.filterMap_cons]
    cases hfa : f a with
    | none => simp [ih]
    | some b =>
      rw [ih]
      simp [List.append_assoc]

theorem products_to_update_eq_filterMap (unique : List (Str × ScrapedProduct))
    (ex : List (Str × ExtProduct)) :
    products_to_update unique ex = unique.filterMap (update_decision ex) := by
  have hfun : (fun (acc : List UpdateRecord) (hp : Str × ScrapedProduct) =>
      match dictLookup ex hp.1 with
      | none => acc
      | some data =>
        if scraped_is_active hp.2 ≠ ext_is_active data then
          acc ++ [⟨data.product_url, if scraped_is_active hp.2 then 1 else 0,
            hp.2.title.getD hp.1⟩]
        else acc)
      = (fun acc hp => acc ++ (update_decision ex hp).toList) := by
    funext acc hp
    unfold update_decision
    cases dictLookup ex hp.1 with
    | none => simp
    | some data =>
      dsimp only
      by_cases h : scraped_is_active hp.2 ≠ ext_is_active data
      · rw [if_pos h, if_pos h]
        rfl
      · rw [if_neg h, if_neg h]
        simp
  unfold products_to_update
  rw [hfun, foldl_opt_append_eq_filterMap (update_decision ex) unique []]
  rfl

theorem missing_products_to_update_eq_filterMap (unique : List (Str × ScrapedProduct))
    (ex : List (Str × ExtProduct)) :
    missing_products_to_update unique ex
      = ex.filterMap (missing_decision (unique.map Prod.fst)) := by
  have hfun : (fun (acc : List UpdateRecord) (he : Str × ExtProduct) =>
      if he.1 ∈ unique.map Prod.fst then acc
      else if ext_is_active he.2 then
        acc ++ [⟨he.2.product_url, 0, "(Removed) ".toList ++ he.1⟩]
      else acc)
      = (fun acc he => acc ++ (missing_decision (unique.map Prod.fst) he).toList) := by
    funext acc he
    unfold missing_decision
    by_cases h1 : he.1 ∈ unique.map Prod.fst
    · rw [if_pos h1, if_pos h1]
      simp
    · rw [if_neg h1, if_neg h1]
      by_cases h2 : ext_is_active he.2
      · rw [if_pos h2, if_pos h2]
        rfl
      · rw [if_neg h2, if_neg h2]
        simp
  unfold missing_products_to_update
  rw [hfun, foldl_opt_append_eq_filterMap (missing_decision (unique.map Prod.fst)) ex []]
  rfl

/-- C1: soundness and completeness of both aggregator queues over the
deduplicated scraped mapping: a handle known to both sides queues its
activation record (with the external `product_url` and integer 0/1 flag)
exactly when the activity bits disagree, a handle scraped by no source
and externally active queues its `(Removed)` deactivation record, and
every queued record arises this way (no other updates are queued). -/
theorem C1_aggregator_queues (all_scraped : List (Str × List ScrapedProduct))
    (ex : List (Str × ExtProduct)) :
    (∀ (h : Str) (p : ScrapedProduct) (e : ExtProduct),
        (h, p) ∈ unique_scraped_products all_scraped → dictLookup ex h = some e →
        scraped_is_active p ≠ ext_is_active e →
        (⟨e.product_url, if scraped_is_active p then 1 else 0, p.title.getD h⟩ : UpdateRecord)
          ∈ products_to_update (unique_scraped_products all_scraped) ex)
    ∧ (∀ (h : Str) (p : ScrapedProduct) (e : ExtProduct),
        dictLookup ex h = some e → scraped_is_active p = ext_is_active e →
        update_decision ex (h, p) = none)
    ∧ (∀ r ∈ products_to_update (unique_scraped_products all_scraped) ex,
        ∃ (h : Str) (p : ScrapedProduct) (e : ExtProduct),
          (h, p) ∈ unique_scraped_products all_scraped ∧ dictLookup ex h = some e
            ∧ scraped_is_active p ≠ ext_is_active e
            ∧ r = ⟨e.product_url, if scraped_is_active p then 1 else 0, p.title.getD h⟩)
    ∧ (∀ (h : Str) (e : ExtProduct),
        (h, e) ∈ ex → h ∉ (unique_scraped_products all_scraped).map Prod.fst →
        ext_is_active e = true →
        (⟨e.product_url, 0, "(Removed) ".toList ++ h⟩ : UpdateRecord)
          ∈ missing_products_to_update (unique_scraped_products all_scraped) ex)
    ∧ (∀ r ∈ missing_products_to_update (unique_scraped_products all_scraped) ex,
        ∃ (h : Str) (e : ExtProduct),
          (h, e) ∈ ex ∧ h ∉ (unique_scraped_products all_scraped).map Prod.fst
            ∧ ext_is_active e = true
            ∧ r = ⟨e.product_url, 0, "(Removed) ".toList ++ h⟩) := by
  refine ⟨?_, ?_, ?_, ?_, ?_⟩
  · intro h p e hmem hlk hdiff
    rw [products_to_update_eq_filterMap]
    refine List.mem_filterMap.mpr ⟨(h, p), hmem, ?_⟩
    unfold update_decision
    rw [hlk]
    dsimp only
    rw [if_pos hdiff]
  · intro h p e hlk heq
    unfold update_decision
    rw [hlk]
    dsimp only
    rw [if_neg (by simp [heq])]
  · intro r hr
    rw [products_to_update_eq_filterMap] at hr
    obtain ⟨hp, hmem, hdec⟩ := List.mem_filterMap.mp hr
    unfold update_decision at hdec
    cases hlk : dictLookup ex hp.1 with
    | none =>
      rw [hlk] at hdec
      exact absurd hdec (by simp)
    | some e =>
      rw [hlk] at hdec
      dsimp only at hdec
      by_cases hdiff : scraped_is_active hp.2 ≠ ext_is_active e
      · rw [if_pos hdiff] at hdec
        injection hdec with hdec
        exact ⟨hp.1, hp.2, e, hmem, hlk, hdiff, hdec.symm⟩
      · rw [if_neg hdiff] at hdec
        exact absurd hdec (by simp)
  · intro h e hmem hnot hact
    rw [missing_products_to_update_eq_filterMap]
    refine List.mem_filterMap.mpr ⟨(h, e), hmem, ?_⟩
    unfold missing_decision
    rw [if_neg hnot, if_pos hact]
  · intro r hr
    rw [missing_products_to_update_eq_filterMap] at hr
    obtain ⟨he, hmem, hdec⟩ := List.mem_filterMap.mp hr
    unfold missing_decision at hdec
    by_cases h1 : he.1 ∈ (unique_scraped_products all_scraped).map Prod.fst
    · rw [if_pos h1] at hdec
      exact absurd hdec (by simp)
    · rw [if_neg h1] at hdec
      by_cases h2 : ext_is_active he.2
      · rw [if_pos h2] at hdec
        injection hdec with hdec
        exact ⟨he.1, he.2, hmem, h1, h2, hdec.symm⟩
      · rw [if_neg h2] at hdec
        exact absurd hdec (by simp)

def aggScrapedExample : ScrapedProduct :=
  ⟨some ("https://a/products/h1".toList), some ("T".toList), some ("In Stock".toList)⟩

def aggExtExample : ExtProduct := ⟨"https://store/products/h1".toList, some false⟩

/-- Witness for `C1_aggregator_queues`: an inactive store product
scraped as in-stock queues an activation record. -/
theorem C1_witness :
    (⟨aggExtExample.product_url, if scraped_is_active aggScrapedExample then 1 else 0,
        aggScrapedExample.title.getD ("h1".toList)⟩ : UpdateRecord)
      ∈ products_to_update (unique_scraped_products [("src".toList, [aggScrapedExample])])
          [("h1".toList, aggExtExample)] :=
  (C1_aggregator_queues [("src".toList, [aggScrapedExample])]
      [("h1".toList, aggExtExample)]).1 ("h1".toList) aggScrapedExample aggExtExample
    (by decide) (by decide) (by decide)

/-- The snapshot dict built by `get_existing_products_status`, keyed by
`product_url` (last write wins on duplicates). -/
def existing_products_map (snapshot : List ExtProduct) : List (Str × ExtProduct) :=
  snapshot.foldl (fun acc p => dictInsert acc p.product_url p) []

/-- The handle-keyed view of the snapshot: keys are normalized, last
write wins on handle collisions. -/
def existing_by_handle_map (existing_products : List (Str × ExtProduct)) :
    List (Str × ExtProduct) :=
  existing_products.foldl
    (fun acc kv => dictInsert acc (normalize_product_url kv.1) kv.2) []

/-- One observable network call of the aggregation pass. -/
inductive StoreCall where
  | getToken : StoreCall
  | getSnapshot : StoreCall
  | postBatch : List UpdateRecord → StoreCall
  deriving DecidableEq, Repr

/-- `batch_update_store` as a trace of store calls, parameterised by the
oracle results of authentication (`none` = failure) and of the snapshot
fetch (`none` = request failed; the function itself catches the error
and yields `{}`). -/
def batch_update_store (tokenRes : Option Str) (snapRes : Option (List ExtProduct))
    (all_scraped : List (Str × List ScrapedProduct)) : List StoreCall :=
  StoreCall.getToken ::
    (match tokenRes with
     | none => []
     | some _ =>
       StoreCall.getSnapshot ::
         (let existing_by_handle :=
            existing_by_handle_map (existing_products_map (snapRes.getD []))
          let unique := unique_scraped_products all_scraped
          let upd := products_to_update unique existing_by_handle
          let miss := missing_products_to_update unique existing_by_handle
          (if upd.isEmpty then [] else [StoreCall.postBatch upd])
            ++ (if miss.isEmpty then [] else [StoreCall.postBatch miss])))

/-- C7: an aggregation pass whose authentication fails stops after the
token request — no snapshot fetch, no batch update; a pass whose
snapshot fetch fails performs no batch update either (both queues are
computed against the empty snapshot), leaving the external store
untouched. -/
theorem C7_fail_fast_aborts :
    (∀ (snapRes : Option (List ExtProduct)) (all_scraped : List (Str × List ScrapedProduct)),
      batch_update_store none snapRes all_scraped = [StoreCall.getToken])
    ∧ (∀ (t : Str) (all_scraped : List (Str × List ScrapedProduct)),
      batch_update_store (some t) none all_scraped
        = [StoreCall.getToken, StoreCall.getSnapshot]) := by
  constructor
  · intro snapRes all_scraped
    rfl
  · intro t all_scraped
    have h1 : products_to_update (unique_scraped_products all_scraped) [] = [] := by
      rw [products_to_update_eq_filterMap]
      refine List.filterMap_eq_nil_iff.mpr (fun a _ => rfl)
    unfold batch_update_store
    dsimp only
    rw [show existing_by_handle_map (existing_products_map
        ((none : Option (List ExtProduct)).getD [])) = [] from rfl, h1]
    rfl

end Scraper
